import Mathlib

/-!
Shallow embedding of the signal-extraction and aggregation engine of
src/nansen_listener1.py (message parser, flow classifier, pressure model,
window aggregator, breakdown tracer and backtest replay loop), together
with theorems settling the frozen claims about it.

Modelling conventions:
* Python floats are idealised as exact rationals, and the single real-valued
  transcendental step (math.tanh inside the confidence transform) as the real
  number obtained by casting those rationals to the reals.
* datetimes are modelled as rational numbers of seconds since an epoch that
  falls on a UTC midnight (so day/hour/minute components are floors/mods).
* Python's round (banker's rounding, round-half-to-even) is modelled by
  pyRound / pyRoundQ below.
* Configuration values (token list, weight table, market caps, lag) are the
  defaults hard-coded in the source's os.getenv calls; the replay step
  SNAPSHOT_EVERY_SEC is kept as an explicit parameter because claims
  quantify over it.
* Regular-expression searches are embedded as recursive functions over
  character lists that implement the leftmost-match-with-backtracking
  behaviour of the concrete patterns RE_KIND, RE_USD, RE_EXCHANGE,
  RE_HHMMSS and RE_TOKEN_ANY on the inputs the code feeds them.
-/

namespace NansenListener

/-! ### Character and string helpers -/

/-- Uppercase a character list, modelling Python str.upper on ASCII input. -/
def upperL (s : List Char) : List Char := s.map Char.toUpper

/-- Word character for the regex word-boundary `\b`: `[A-Za-z0-9_]`. -/
def isWordChar (c : Char) : Bool := c.isAlphanum || c == '_'

/-- Whitespace for the regex class `\s` and Python str.strip. -/
def isWs (c : Char) : Bool :=
  c == ' ' || c == '\t' || c == '\n' || c == '\r' || c == '\x0b' || c == '\x0c'

/-- Does the pattern occur as a prefix of the string (exact characters)? -/
def startsWithL : List Char → List Char → Bool
  | [], _ => true
  | _ :: _, [] => false
  | p :: ps, c :: cs => p == c && startsWithL ps cs

/-- Substring containment, modelling Python's `pat in s`. -/
def containsL : List Char → List Char → Bool
  | [], pat => startsWithL pat []
  | c :: rest, pat => startsWithL pat (c :: rest) || containsL rest pat

/-- Strip leading and trailing whitespace, modelling Python str.strip(). -/
def stripWs (s : List Char) : List Char :=
  ((s.dropWhile isWs).reverse.dropWhile isWs).reverse

/-- Model of Python str.splitlines (on the line terminators \n, \r\n, \r). -/
def splitLinesGo : List Char → List Char → List (List Char)
  | [], acc => [acc.reverse]
  | '\r' :: '\n' :: rest, acc =>
      acc.reverse :: (match rest with | [] => [] | _ :: _ => splitLinesGo rest [])
  | '\n' :: rest, acc =>
      acc.reverse :: (match rest with | [] => [] | _ :: _ => splitLinesGo rest [])
  | '\r' :: rest, acc =>
      acc.reverse :: (match rest with | [] => [] | _ :: _ => splitLinesGo rest [])
  | c :: rest, acc => splitLinesGo rest (c :: acc)

/-- Python str.splitlines: empty string gives no lines. -/
def splitLines : List Char → List (List Char)
  | [] => []
  | c :: rest => splitLinesGo (c :: rest) []

/-- Numeric value of a digit character. -/
def digVal (c : Char) : ℕ := c.toNat - 48

/-- Value of a digit string. -/
def digitsVal (l : List Char) : ℕ := l.foldl (fun acc c => 10 * acc + digVal c) 0

/-- Split a character list at the first dot into integer and fractional digits. -/
def splitDot : List Char → List Char × List Char
  | [] => ([], [])
  | '.' :: rest => ([], rest)
  | c :: rest => let p := splitDot rest; (c :: p.1, p.2)

/-- Model of `float(txt.replace(",", ""))` on the decimal strings captured by
the dollar-amount pattern (digits, optional comma groups, optional fraction). -/
def strToQ (s : List Char) : ℚ :=
  let s2 := s.filter (fun c => !(c == ','))
  let p := splitDot s2
  (digitsVal p.1 : ℚ) + (digitsVal p.2 : ℚ) / (10 : ℚ) ^ p.2.length

/-! ### Regex models

Each RE_*_search function models `RE_*.search(...)` from the source: scan
positions left to right, and at each position attempt the pattern with the
greedy/backtracking semantics worked out for that concrete pattern. -/

/-- Boundary test on the left of the current position, given the previous
character (none at the start of the string). -/
def boundaryLPrev : Option Char → Bool
  | none => true
  | some p => !(isWordChar p)

/-- Word boundary on the right: next character absent or not a word char. -/
def boundaryR : List Char → Bool
  | [] => true
  | c :: _ => !(isWordChar c)

/-- Case-insensitive prefix strip: if the uppercase of s starts with the
(uppercase) pattern, return the remainder. -/
def stripCI : List Char → List Char → Option (List Char)
  | [], s => some s
  | _ :: _, [] => none
  | p :: ps, c :: cs => if c.toUpper == p then stripCI ps cs else none

/-- Alternation of the four category keywords of RE_KIND, tried in the
pattern's order at a fixed position; a keyword only matches when followed by
a word boundary. -/
def tryKinds : List String → List Char → Option String
  | [], _ => none
  | k :: ks, s =>
      match stripCI k.data s with
      | some rest => if boundaryR rest then some k else tryKinds ks s
      | none => tryKinds ks s

/-- Model of RE_KIND.search: first position with a left word boundary where
one of CEX/DEX/VC/MERCADO matches case-insensitively with a right boundary.
Returns the canonical uppercase keyword, i.e. the source's
`km.group(1).upper()`. -/
def kindSearchAux (prev : Option Char) : List Char → Option String
  | [] => none
  | c :: rest =>
      match (if boundaryLPrev prev then tryKinds ["CEX", "DEX", "VC", "MERCADO"] (c :: rest)
             else none) with
      | some k => some k
      | none => kindSearchAux (some c) rest

def RE_KIND_search (line : List Char) : Option String := kindSearchAux none line

/-- Longest prefix made of uppercase letters A-Z. -/
def upperRun : List Char → List Char
  | [] => []
  | c :: rest => if 'A' ≤ c && c ≤ 'Z' then c :: upperRun rest else []

/-- Model of RE_TOKEN_ANY.search on an already-uppercased string: the first
maximal run of 2 to 10 letters enclosed in word boundaries. -/
def tokenAnyAux (prev : Option Char) : List Char → Option String
  | [] => none
  | c :: rest =>
      match (if boundaryLPrev prev then
               let r := upperRun (c :: rest)
               if 2 ≤ r.length && r.length ≤ 10 && boundaryR ((c :: rest).drop r.length)
               then some (String.mk r) else none
             else none) with
      | some t => some t
      | none => tokenAnyAux (some c) rest

def RE_TOKEN_ANY_search (up : List Char) : Option String := tokenAnyAux none up

/-- Take up to n leading digits; return them and the rest of the string. -/
def takeDigits : ℕ → List Char → List Char × List Char
  | _, [] => ([], [])
  | 0, s => ([], s)
  | n + 1, c :: rest =>
      if c.isDigit then
        let p := takeDigits n rest
        (c :: p.1, p.2)
      else ([], c :: rest)

/-- Greedy `(?:,[0-9]{3})*`: consume comma groups of exactly three digits. -/
def commaGroups : List Char → List Char × List Char
  | ',' :: a :: b :: c :: rest =>
      if a.isDigit && b.isDigit && c.isDigit then
        let p := commaGroups rest
        (',' :: a :: b :: c :: p.1, p.2)
      else ([], ',' :: a :: b :: c :: rest)
  | s => ([], s)

/-- Optional `(?:\.[0-9]{1,4})?`: a dot followed by one to four digits. -/
def decPart : List Char → List Char
  | '.' :: rest =>
      let p := takeDigits 4 rest
      if p.1 = [] then [] else '.' :: p.1
  | _ => []

/-- Attempt the tail of RE_USD right after a `$`: `\s*` then
`[0-9]{1,3}(?:,[0-9]{3})*(?:\.[0-9]{1,4})?`; returns the captured group 2. -/
def usdAfterDollar (s : List Char) : Option (List Char) :=
  let s1 := s.dropWhile isWs
  let p := takeDigits 3 s1
  if p.1 = [] then none
  else
    let g := commaGroups p.2
    some (p.1 ++ g.1 ++ decPart g.2)

/-- Model of RE_USD.search: leftmost `[\-+]?\$` followed by a matching
amount; returns group 2 (the textual amount, sign discarded just as the
source only ever reads group(2)). -/
def usdSearchAux : List Char → Option (List Char)
  | [] => none
  | c :: rest =>
      if c == '$' then
        match usdAfterDollar rest with
        | some g => some g
        | none => usdSearchAux rest
      else if c == '-' || c == '+' then
        match rest with
        | '$' :: r2 =>
            match usdAfterDollar r2 with
            | some g => some g
            | none => usdSearchAux rest
        | _ => usdSearchAux rest
      else usdSearchAux rest

def RE_USD_search (s : List Char) : Option (List Char) := usdSearchAux s

/-- Character class `[A-Za-z0-9\.\-_ ]` of RE_EXCHANGE. -/
def exchClass (c : Char) : Bool :=
  c.isAlphanum || c == '.' || c == '-' || c == '_' || c == ' '

/-- Longest prefix of exchange-class characters. -/
def exchRun : List Char → List Char
  | [] => []
  | c :: rest => if exchClass c then c :: exchRun rest else []

/-- Attempt the bracket body right after a `[`: since `]` is not in the
class, the greedy `{2,30}` matches exactly the maximal class run, which must
have length 2 to 30 and be followed by `]`. -/
def exchAt (s : List Char) : Option (List Char) :=
  let r := exchRun s
  if 2 ≤ r.length && r.length ≤ 30 then
    match s.drop r.length with
    | ']' :: _ => some r
    | _ => none
  else none

/-- Model of RE_EXCHANGE.search (group 1). -/
def exchSearchAux : List Char → Option (List Char)
  | [] => none
  | '[' :: rest =>
      match exchAt rest with
      | some g => some g
      | none => exchSearchAux rest
  | _ :: rest => exchSearchAux rest

def RE_EXCHANGE_search (s : List Char) : Option (List Char) := exchSearchAux s

/-- The `:[0-5]\d:[0-5]\d\b` tail of RE_HHMMSS; returns minutes and seconds. -/
def msPart : List Char → Option (ℕ × ℕ)
  | ':' :: m1 :: m2 :: ':' :: s1 :: s2 :: rest =>
      if ('0' ≤ m1 && m1 ≤ '5') && m2.isDigit && ('0' ≤ s1 && s1 ≤ '5') && s2.isDigit
          && boundaryR rest then
        some (10 * digVal m1 + digVal m2, 10 * digVal s1 + digVal s2)
      else none
  | _ => none

/-- Third alternative branch `2[0-3]` of the hour group. -/
def hhmmssTwenty : List Char → Option (ℕ × ℕ × ℕ)
  | c1 :: c2 :: rest =>
      if c1 == '2' && ('0' ≤ c2 && c2 ≤ '3') then
        match msPart rest with
        | some p => some (20 + digVal c2, p.1, p.2)
        | none => none
      else none
  | _ => none

/-- Backtracked one-digit hour `\d`, then the `2[0-3]` alternative. -/
def hhmmssOne : List Char → Option (ℕ × ℕ × ℕ)
  | [] => none
  | c1 :: rest =>
      if c1.isDigit then
        match msPart rest with
        | some p => some (digVal c1, p.1, p.2)
        | none => hhmmssTwenty (c1 :: rest)
      else none

/-- Attempt RE_HHMMSS at a fixed position (left boundary checked by caller):
greedy `[01]?\d` first, backtracking to `\d`, then the `2[0-3]` alternative. -/
def hhmmssAt : List Char → Option (ℕ × ℕ × ℕ)
  | c1 :: c2 :: rest =>
      if (c1 == '0' || c1 == '1') && c2.isDigit then
        match msPart rest with
        | some p => some (10 * digVal c1 + digVal c2, p.1, p.2)
        | none => hhmmssOne (c1 :: c2 :: rest)
      else hhmmssOne (c1 :: c2 :: rest)
  | s => hhmmssOne s

/-- Model of RE_HHMMSS.search, returning the clock reading (h, m, s). -/
def hhmmssSearchAux (prev : Option Char) : List Char → Option (ℕ × ℕ × ℕ)
  | [] => none
  | c :: rest =>
      match (if boundaryLPrev prev then hhmmssAt (c :: rest) else none) with
      | some r => some r
      | none => hhmmssSearchAux (some c) rest

def RE_HHMMSS_search (s : List Char) : Option (ℕ × ℕ × ℕ) := hhmmssSearchAux none s

/-! ### Configuration (the source's env-var defaults) -/

/-- Default TOKENS list. -/
def TOKENS : List String := ["AAVE", "LINK", "HYPE", "ETH", "STABLES"]

/-- Default WEIGHTS_KIND_JSON table. -/
def WEIGHTS_KIND : List (String × ℚ) :=
  [("CEX_IN", 3 / 2), ("CEX_OUT", -1), ("DEX", 1 / 2), ("VC_IN", 6 / 5),
   ("VC_OUT", -(7 / 10)), ("MERCADO", 3 / 10)]

/-- Default MARKET_CAP_USD table. -/
def MARKET_CAPS : List (String × ℚ) :=
  [("AAVE", 1200000000), ("LINK", 9000000000), ("HYPE", 200000000),
   ("ETH", 400000000000)]

/-- Default MIN_LAG_MINUTES. -/
def MIN_LAG_MINUTES : ℚ := 5

/-! ### Event structure and parser -/

/-- The Event dataclass. Timestamps are rational seconds since a UTC
midnight epoch; usd_amount is the parsed dollar magnitude. -/
structure Event where
  ts : ℚ
  token : String
  flow : String
  usd_amount : ℚ
  exchange : String
  raw : String
deriving DecidableEq

/-- pick_token_from_text: first configured token that occurs as a substring
of the uppercased text, else the first bare 2-10 letter word. -/
def pick_token_from_text (text : List Char) : Option String :=
  let up := upperL text
  match TOKENS.filter (fun tok => containsL up tok.data) with
  | t :: _ => some t
  | [] => RE_TOKEN_ANY_search up

/-- classify_flow on the uppercased line (the source passes line.upper()). -/
def classify_flow (base_kind : String) (u : List Char) : String :=
  if base_kind == "CEX" then
    if containsL u "WITHDRAW".data || containsL u "OUTFLOW FROM CEX".data
        || containsL u "WITHDRAWAL".data then "CEX_OUT"
    else "CEX_IN"
  else if base_kind == "VC" then
    if containsL u "INFLOW".data then "VC_IN"
    else if containsL u "OUTFLOW".data then "VC_OUT"
    else "VC_IN"
  else if base_kind == "DEX" then "DEX"
  else "MERCADO"

/-- Model of datetime.replace(hour=h, minute=m, second=s, microsecond=0) on
a UTC timestamp in epoch seconds. -/
def replaceTime (ts : ℚ) (h m s : ℕ) : ℚ :=
  ((⌊ts / 86400⌋ : ℤ) : ℚ) * 86400 + ((h * 3600 + m * 60 + s : ℕ) : ℚ)

/-- The per-line body of parse_events_from_message: a line contributes one
event when both the category keyword and the dollar amount are found and the
amount is positive, else nothing. RE_USD is searched on the comma-stripped
line, exactly as in the source. -/
def lineEvents (token : String) (msg_date : ℚ) (line : List Char) : List Event :=
  match RE_KIND_search line, RE_USD_search (line.filter (fun c => !(c == ','))) with
  | some base_kind, some g2 =>
      if strToQ g2 ≤ 0 then []
      else
        [{ ts := match RE_HHMMSS_search line with
             | some hms => replaceTime msg_date hms.1 hms.2.1 hms.2.2
             | none => msg_date,
           token := token,
           flow := classify_flow base_kind (upperL line),
           usd_amount := strToQ g2,
           exchange := match RE_EXCHANGE_search line with
             | some e => String.mk (stripWs e)
             | none => "",
           raw := String.mk line }]
  | _, _ => []

/-- parse_events_from_message. -/
def parse_events_from_message (msg_text : String) (msg_date_utc : ℚ) : List Event :=
  match pick_token_from_text msg_text.data with
  | none => []
  | some token =>
      (splitLines msg_text.data).flatMap (fun line => lineEvents token msg_date_utc line)

/-! ### Pressure model -/

/-- Table lookup with default. -/
def lookupQ (l : List (String × ℚ)) (k : String) (d : ℚ) : ℚ :=
  match l.lookup k with
  | some v => v
  | none => d

/-- get_market_cap with the 1e9 fallback. -/
def get_market_cap (token : String) : ℚ :=
  lookupQ MARKET_CAPS (String.mk (upperL token.data)) 1000000000

/-- weight_for_flow with the 0.0 fallback. -/
def weight_for_flow (flow : String) : ℚ := lookupQ WEIGHTS_KIND flow 0

/-- pressure_usd: signed USD pressure. -/
def pressure_usd (ev : Event) : ℚ := ev.usd_amount * weight_for_flow ev.flow

/-- normalize_pressure: market-cap normalisation. -/
def normalize_pressure (token : String) (pressure : ℚ) : ℚ :=
  pressure * (1000000 / max 1 (get_market_cap token))

/-! ### Rounding

Python's round() and float formatting use round-half-to-even; on our
idealised rationals/reals this is the function below (it only differs from
Mathlib's round at exact halves). -/

open Classical in
/-- Round-half-to-even on the reals (Python round on the idealised value). -/
noncomputable def pyRound (x : ℝ) : ℤ :=
  if Int.fract x = 1 / 2 then (if Even ⌊x⌋ then ⌊x⌋ else ⌊x⌋ + 1) else round x

/-- Round-half-to-even on the rationals (computable twin of pyRound, used
where the source rounds pure float arithmetic that we model exactly). -/
def pyRoundQ (q : ℚ) : ℤ :=
  if Int.fract q = 1 / 2 then (if Even ⌊q⌋ then ⌊q⌋ else ⌊q⌋ + 1) else round q

/-- Model of Python round(x, n) to n decimal places. -/
def roundQ (n : ℕ) (q : ℚ) : ℚ := (pyRoundQ (q * 10 ^ n) : ℚ) / 10 ^ n

/-! ### Windows, aggregation and confidence -/

/-- The WINDOWS table. -/
def WINDOWS : List (String × ℕ) := [("1h", 1), ("4h", 4), ("24h", 24)]

/-- events_in_window: the window filter with the minimum-lag cutoff. -/
def events_in_window (events : List Event) (now_utc : ℚ) (hours : ℕ) : List Event :=
  let tmin := now_utc - (hours : ℚ) * 3600
  let latest_ok := now_utc - MIN_LAG_MINUTES * 60
  events.filter (fun e => decide (tmin ≤ e.ts) && decide (e.ts ≤ latest_ok))

/-- Model of statistics.median on a nonempty list (sort; middle element for
odd length, mean of the two middle elements for even length). -/
def pymedian (l : List ℚ) : ℚ :=
  let s := l.mergeSort (fun a b => decide (a ≤ b))
  let n := l.length
  if n % 2 = 1 then s.getD (n / 2) 0
  else (s.getD (n / 2 - 1) 0 + s.getD (n / 2) 0) / 2

/-- The dynamic scale S of calc_conf_from_pressures (the same expression is
written inline again inside breakdowns_by_window in the source):
median of the nonzero absolute normalized pressures times 10, floored at 1,
with fallback 1 when no nonzero values exist. -/
def scaleS (norm_pressures : List ℚ) : ℚ :=
  let abs_vals := (norm_pressures.filter (fun x => decide (x ≠ 0))).map (fun x => |x|)
  if abs_vals = [] then 1 else max 1 (pymedian abs_vals * 10)

/-- The real-valued confidence 50 + 50*tanh(total/S) before integer rounding. -/
noncomputable def confReal (total S : ℚ) : ℝ :=
  50 + 50 * Real.tanh ((total : ℝ) / (S : ℝ))

/-- calc_conf_from_pressures: returns (int(round(conf)), total). -/
noncomputable def calc_conf_from_pressures (norm_pressures : List ℚ) : ℤ × ℚ :=
  (pyRound (confReal norm_pressures.sum (scaleS norm_pressures)), norm_pressures.sum)

/-- One (token, window) cell of an AggregationResult. -/
structure AggRes where
  conf : ℤ
  events : ℕ
  usd : ℚ
deriving DecidableEq

/-- The per-token list of normalized pressures that aggregate_by_window
accumulates into bucket_norm[token] (window events of that token, in input
order; normalisation uses ev.token exactly as the source does). -/
def bucket_norm (events : List Event) (now_utc : ℚ) (token : String) (wh : ℕ) : List ℚ :=
  ((events_in_window events now_utc wh).filter (fun e => e.token == token)).map
    (fun e => normalize_pressure e.token (pressure_usd e))

/-- One (token, window) cell of aggregate_by_window's output dictionary.
The source builds the full nested dict over TOKENS and WINDOWS; each cell is
computed independently by exactly this formula. -/
noncomputable def aggregate_by_window (events : List Event) (now_utc : ℚ)
    (token : String) (wh : ℕ) : AggRes :=
  { conf := (calc_conf_from_pressures (bucket_norm events now_utc token wh)).1
    events := ((events_in_window events now_utc wh).filter (fun e => e.token == token)).length
    usd := roundQ 2
      (((events_in_window events now_utc wh).filter (fun e => e.token == token)).map
        pressure_usd).sum }

/-! ### Breakdown tracer -/

/-- One record of the per-event breakdown list. conf_after holds the running
confidence value itself; the source stores its one-decimal string rendering
for display. delta_conf is the constant compatibility field. -/
structure BkItem where
  ts : ℚ
  kind : String
  usd : ℚ
  usd_amount : ℚ
  weight : ℚ
  pressure : ℚ
  pressure_norm : ℚ
  pct_norm : ℚ
  delta_conf : String
  conf_after : ℝ
  exchange : String
deriving Inhabited

/-- Sort key of seq.sort(key=lambda e: e.ts). -/
def tsLe (a b : Event) : Bool := decide (a.ts ≤ b.ts)

/-- The token's window events sorted by timestamp (stable, like list.sort). -/
def bkSeq (events : List Event) (now_utc : ℚ) (token : String) (wh : ℕ) : List Event :=
  ((events_in_window events now_utc wh).filter (fun e => e.token == token)).mergeSort tsLe

/-- prelim_norm of breakdowns_by_window (normalisation uses the outer token
variable, as in the source). -/
def bkPrelim (events : List Event) (now_utc : ℚ) (token : String) (wh : ℕ) : List ℚ :=
  (bkSeq events now_utc token wh).map (fun ev => normalize_pressure token (pressure_usd ev))

/-- The breakdown's scale S for this token and window (same expression as in
calc_conf_from_pressures, recomputed by the source inline). -/
def bkScale (events : List Event) (now_utc : ℚ) (token : String) (wh : ℕ) : ℚ :=
  scaleS (bkPrelim events now_utc token wh)

/-- total_norm_abs: sum of absolute normalized pressures (zeros included). -/
def bkTotalAbs (events : List Event) (now_utc : ℚ) (token : String) (wh : ℕ) : ℚ :=
  ((bkPrelim events now_utc token wh).map (fun x => |x|)).sum

/-- The incremental walk of breakdowns_by_window: one record per event, with
the running cumulative normalized pressure cum and the fixed scale S. -/
noncomputable def bkItems (token : String) (S total_abs : ℚ) : ℚ → List Event → List BkItem
  | _, [] => []
  | cum0, ev :: rest =>
      let p_usd := pressure_usd ev
      let p_n := normalize_pressure token p_usd
      let cum := cum0 + p_n
      { ts := ev.ts, kind := ev.flow, usd := roundQ 2 p_usd,
        usd_amount := roundQ 2 ev.usd_amount,
        weight := roundQ 4 (weight_for_flow ev.flow), pressure := roundQ 2 p_usd,
        pressure_norm := roundQ 8 p_n,
        pct_norm := roundQ 2 (if 0 < total_abs then |p_n| / total_abs * 100 else 0),
        delta_conf := "",
        conf_after := 50 + 50 * Real.tanh ((cum : ℝ) / ((S : ℚ) : ℝ)),
        exchange := ev.exchange } :: bkItems token S total_abs cum rest

/-- The full, untruncated record list for a token and window. -/
noncomputable def bkFullItems (events : List Event) (now_utc : ℚ)
    (token : String) (wh : ℕ) : List BkItem :=
  bkItems token (bkScale events now_utc token wh) (bkTotalAbs events now_utc token wh) 0
    (bkSeq events now_utc token wh)

/-- One (token, window) cell of breakdowns_by_window's output. -/
structure BkRes where
  conf : ℤ
  events : ℕ
  usd : ℚ
  events_list : List BkItem

/-- One (token, window) cell of breakdowns_by_window: totals come from
aggregate_by_window, and when the record count exceeds max_lines only the
last max_lines records are kept (items[-max_lines:]). -/
noncomputable def breakdowns_by_window (events : List Event) (now_utc : ℚ)
    (token : String) (wh : ℕ) (max_lines : ℕ) : BkRes :=
  let items := bkFullItems events now_utc token wh
  { conf := (aggregate_by_window events now_utc token wh).conf
    events := (bkSeq events now_utc token wh).length
    usd := roundQ 2 ((bkSeq events now_utc token wh).map pressure_usd).sum
    events_list :=
      if 0 < max_lines ∧ max_lines < items.length then
        items.drop (items.length - max_lines)
      else items }

/-! ### Backtest replay (the BACKTEST branch of main) -/

/-- The subset events with e.ts <= pointer formed at each replay step. -/
def upto (events : List Event) (p : ℚ) : List Event :=
  events.filter (fun e => decide (e.ts ≤ p))

/-- The minute component of a UTC timestamp in epoch seconds. -/
def minuteOf (ts : ℚ) : ℕ := (⌊ts / 60⌋ % 60).toNat

/-- The enclosing hour boundary of a UTC timestamp. -/
def hourFloor (ts : ℚ) : ℚ := ((⌊ts / 3600⌋ : ℤ) : ℚ) * 3600

/-- The pointer alignment of main's BACKTEST branch:
t0 = ts.replace(minute=(minute // (step//60)) * (step//60), second=0,
microsecond=0). When step // 60 = 0 (step < 60) Python raises
ZeroDivisionError, modelled as the error case. -/
def alignPointer (step : ℕ) (ts : ℚ) : Except String ℚ :=
  if step / 60 = 0 then Except.error "ZeroDivisionError"
  else Except.ok (hourFloor ts + ((minuteOf ts / (step / 60)) * (step / 60) : ℕ) * 60)

/-- The evaluation instants of the while loop: pointer, pointer + step, ...
while pointer <= tN. The loop only ever runs with a positive step (the
alignment already failed otherwise); the guard makes the recursion
well-founded. -/
def replayInstants (delta : ℕ) (tN : ℚ) (pointer : ℚ) : List ℚ :=
  if h : 0 < delta ∧ pointer ≤ tN then
    pointer :: replayInstants delta tN (pointer + delta)
  else []
termination_by (⌊(tN - pointer) / (delta : ℚ)⌋ + 1).toNat
decreasing_by
  obtain ⟨hd, hp⟩ := h
  have hdq : (0 : ℚ) < (delta : ℚ) := by exact_mod_cast hd
  have h0 : 0 ≤ ⌊(tN - pointer) / (delta : ℚ)⌋ :=
    Int.floor_nonneg.2 (div_nonneg (by linarith) hdq.le)
  have heq : (tN - (pointer + delta)) / (delta : ℚ)
      = (tN - pointer) / (delta : ℚ) - 1 := by
    field_simp
    ring
  have hfl : ⌊(tN - (pointer + delta)) / (delta : ℚ)⌋
      = ⌊(tN - pointer) / (delta : ℚ)⌋ - 1 := by
    rw [heq]
    exact_mod_cast Int.floor_sub_int ((tN - pointer) / (delta : ℚ)) 1
  rw [hfl]
  omega

/-- The BACKTEST replay: sort the events by timestamp, align the starting
pointer, then aggregate the prefix subset at every instant. Each returned
snapshot is the instant together with its (token, window) aggregation cells.
The source handles the empty event list in a separate branch before this
loop; the empty case here returns no snapshots. -/
noncomputable def backtest_replay (step : ℕ) (events : List Event) :
    Except String (List (ℚ × (String → ℕ → AggRes))) :=
  match events.mergeSort tsLe with
  | [] => Except.ok []
  | e0 :: rest =>
      match alignPointer step e0.ts with
      | Except.error msg => Except.error msg
      | Except.ok t0 =>
          Except.ok ((replayInstants step ((e0 :: rest).getLast (List.cons_ne_nil e0 rest)).ts t0).map
            (fun p => (p, fun token wh => aggregate_by_window (upto (e0 :: rest) p) p token wh)))

/-- Running partial sums c + l0, c + l0 + l1, ... of a list, used to state
that the breakdown's cumulative confidences come from prefix sums of the
full, untruncated pressure sequence. -/
def cumSumsFrom (c : ℚ) : List ℚ → List ℚ
  | [] => []
  | x :: xs => (c + x) :: cumSumsFrom (c + x) xs

/-! ### Concrete example data used by witnesses and counterexamples -/

/-- An AAVE CEX_IN event with the given timestamp and dollar amount. -/
def eA (ts usd : ℚ) : Event := ⟨ts, "AAVE", "CEX_IN", usd, "", ""⟩

/-- Three CEX_IN events whose normalized pressures are 1, 1, 1000. -/
def c2evs3 : List Event := [eA 1000 800, eA 1100 800, eA 1200 800000]

/-- The same events followed by one more CEX_IN event of pressure 1000. -/
def c2evs4 : List Event := c2evs3 ++ [eA 1300 800000]

/-- Two small CEX_IN events (used to exercise breakdown truncation). -/
def exEvents2 : List Event := [eA 1000 800, eA 1100 800]

/-- The event parsed from the message "AAVE CEX $100" at receipt time 0. -/
def evC7 : Event := ⟨0, "AAVE", "CEX_IN", 100, "", "AAVE CEX $100"⟩

end NansenListener

namespace NansenListener

/-! ## Helper lemmas -/

theorem pyRound_le (x : ℝ) : (pyRound x : ℝ) ≤ x + 1 / 2 := by
  have hfr := Int.self_sub_fract x
  unfold pyRound
  split
  · rename_i h
    split
    · push_cast
      linarith
    · push_cast
      linarith
  · exact_mod_cast round_le_add_half x

theorem le_pyRound (x : ℝ) : x - 1 / 2 ≤ (pyRound x : ℝ) := by
  have hfr := Int.self_sub_fract x
  unfold pyRound
  split
  · rename_i h
    split
    · push_cast
      linarith
    · push_cast
      linarith
  · exact_mod_cast (sub_half_lt_round x).le

theorem tanh_exp_formula (x : ℝ) : Real.tanh x
    = (Real.exp x ^ 2 - 1) / (Real.exp x ^ 2 + 1) := by
  rw [Real.tanh_eq_sinh_div_cosh, Real.sinh_eq, Real.cosh_eq, Real.exp_neg]
  have h1 : Real.exp x ≠ 0 := (Real.exp_pos x).ne'
  have h2 : Real.exp x + (Real.exp x)⁻¹ ≠ 0 := by positivity
  have h3 : Real.exp x ^ 2 + 1 ≠ 0 := by positivity
  field_simp
  ring

theorem tanh_lt_one' (x : ℝ) : Real.tanh x < 1 := by
  rw [tanh_exp_formula]
  have h : (0:ℝ) < Real.exp x ^ 2 + 1 := by positivity
  rw [div_lt_one h]
  linarith

theorem neg_one_lt_tanh' (x : ℝ) : -1 < Real.tanh x := by
  rw [tanh_exp_formula]
  have h : (0:ℝ) < Real.exp x ^ 2 + 1 := by positivity
  rw [lt_div_iff h]
  nlinarith [Real.exp_pos x]

theorem tanh_nonneg' {x : ℝ} (hx : 0 ≤ x) : 0 ≤ Real.tanh x := by
  rw [Real.tanh_eq_sinh_div_cosh]
  exact div_nonneg (Real.sinh_nonneg_iff.2 hx) (Real.cosh_pos x).le

theorem one_le_scaleS (l : List ℚ) : 1 ≤ scaleS l := by
  simp only [scaleS]
  split
  · exact le_refl 1
  · exact le_max_left 1 _


theorem pyRound_ofInt (n : ℤ) : pyRound ((n : ℝ)) = n := by
  unfold pyRound
  rw [Int.fract_intCast, if_neg (by norm_num)]
  exact round_intCast n

theorem confReal_bounds (t S : ℚ) : 0 < confReal t S ∧ confReal t S < 100 := by
  unfold confReal
  constructor
  · nlinarith [neg_one_lt_tanh' (((t : ℚ) : ℝ) / ((S : ℚ) : ℝ))]
  · nlinarith [tanh_lt_one' (((t : ℚ) : ℝ) / ((S : ℚ) : ℝ))]

theorem pyRound_conf_bounds (t S : ℚ) :
    0 ≤ pyRound (confReal t S) ∧ pyRound (confReal t S) ≤ 100 := by
  obtain ⟨h1, h2⟩ := confReal_bounds t S
  have hl := le_pyRound (confReal t S)
  have hu := pyRound_le (confReal t S)
  constructor
  · have hc : (-1 : ℝ) < (pyRound (confReal t S) : ℝ) := by linarith
    have hz : (-1 : ℤ) < pyRound (confReal t S) := by exact_mod_cast hc
    omega
  · have hc : ((pyRound (confReal t S)) : ℝ) < 101 := by linarith
    have hz : pyRound (confReal t S) < 101 := by exact_mod_cast hc
    omega

theorem calc_conf_empty : calc_conf_from_pressures [] = (50, 0) := by
  unfold calc_conf_from_pressures
  have hS : scaleS [] = 1 := by simp [scaleS]
  have hc : confReal (List.sum []) (scaleS []) = ((50 : ℤ) : ℝ) := by
    rw [hS]
    unfold confReal
    norm_num
  rw [hc, pyRound_ofInt]
  norm_num

/-- Claim C5: for every list of normalized pressures the confidence is an
integer in [0, 100]; for the empty list calc_conf_from_pressures returns
exactly (50, 0), and aggregating zero events gives confidence 50, event
count 0 and signed USD sum 0. -/
theorem c5_confidence_bounds_and_empty_neutral :
    (∀ l : List ℚ, 0 ≤ (calc_conf_from_pressures l).1 ∧ (calc_conf_from_pressures l).1 ≤ 100)
      ∧ calc_conf_from_pressures [] = (50, 0)
      ∧ ∀ (now_utc : ℚ) (token : String) (wh : ℕ),
          aggregate_by_window [] now_utc token wh = ⟨50, 0, 0⟩ := by
  refine ⟨fun l => ?_, calc_conf_empty, fun now_utc token wh => ?_⟩
  · exact pyRound_conf_bounds l.sum (scaleS l)
  · have hw : events_in_window [] now_utc wh = [] := rfl
    have husd : roundQ 2 0 = 0 := by
      unfold roundQ pyRoundQ
      norm_num
    simp [aggregate_by_window, bucket_norm, hw, husd, calc_conf_empty]

/-- Claim C6: an event of the collection is selected for a window of
duration hours exactly when now - hours*3600 <= ts <= now - lag, and an
event with ts within the lag of now is selected for no window at all. -/
theorem c6_window_selection_iff_and_lag_exclusion
    (events : List Event) (now_utc : ℚ) (hours : ℕ) (e : Event) (he : e ∈ events) :
    (e ∈ events_in_window events now_utc hours ↔
        now_utc - (hours : ℚ) * 3600 ≤ e.ts ∧ e.ts ≤ now_utc - MIN_LAG_MINUTES * 60)
      ∧ (now_utc - MIN_LAG_MINUTES * 60 < e.ts →
          ∀ hours2 : ℕ, e ∉ events_in_window events now_utc hours2) := by
  constructor
  · simp [events_in_window, List.mem_filter, he]
  · intro hlate hours2 hmem
    simp only [events_in_window, List.mem_filter, Bool.and_eq_true, decide_eq_true_eq] at hmem
    linarith [hmem.2.2]

/-- Witness for c6: a concrete event inside the 1h window. -/
theorem c6_window_selection_iff_and_lag_exclusion_witness :
    (eA 1000 800 ∈ [eA 1000 800])
      ∧ ((eA 1000 800 ∈ events_in_window [eA 1000 800] 4000 1 ↔
            (4000 : ℚ) - ((1 : ℕ) : ℚ) * 3600 ≤ (eA 1000 800).ts
              ∧ (eA 1000 800).ts ≤ 4000 - MIN_LAG_MINUTES * 60)
          ∧ (4000 - MIN_LAG_MINUTES * 60 < (eA 1000 800).ts →
              ∀ hours2 : ℕ, eA 1000 800 ∉ events_in_window [eA 1000 800] 4000 hours2)) :=
  ⟨List.mem_singleton_self _,
    c6_window_selection_iff_and_lag_exclusion [eA 1000 800] 4000 1 (eA 1000 800)
      (List.mem_singleton_self _)⟩


theorem strToQ_digits (s ip fp : List Char) (a b : ℕ)
    (h1 : splitDot (s.filter (fun c => !(c == ','))) = (ip, fp))
    (h2 : digitsVal ip = a) (h3 : digitsVal fp = b) :
    strToQ s = (a : ℚ) + (b : ℚ) / (10 : ℚ) ^ fp.length := by
  simp only [strToQ, h1, h2, h3]

/-- Claim C1, evaluation of the code at the failing input: on the line
"AAVE CEX $1,500,000" the parser stores usd_amount 150 — a proper prefix of
the digits — because the source searches RE_USD on the comma-stripped line,
where the pattern's leading [0-9]{1,3} can match at most three digits and
its comma-group alternations are dead. -/
theorem c1_code_parses_prefix_of_grouped_amount :
    (parse_events_from_message "AAVE CEX $1,500,000" 0).map (fun e => e.usd_amount)
      = [150] := by
  have htok : pick_token_from_text ("AAVE CEX $1,500,000".data) = some "AAVE" := by decide
  have hsplit : splitLines ("AAVE CEX $1,500,000".data)
      = ["AAVE CEX $1,500,000".data] := by decide
  have hk : RE_KIND_search ("AAVE CEX $1,500,000".data) = some "CEX" := by decide
  have hu : RE_USD_search (("AAVE CEX $1,500,000".data).filter (fun c => !(c == ',')))
      = some ("150".data) := by decide
  have hv : strToQ ("150".data) = 150 := by
    rw [strToQ_digits _ ("150".data) [] 150 0 (by decide) (by decide) (by decide)]
    norm_num
  have hh : RE_HHMMSS_search ("AAVE CEX $1,500,000".data) = none := by decide
  have he : RE_EXCHANGE_search ("AAVE CEX $1,500,000".data) = none := by decide
  have hcf : classify_flow "CEX" (upperL ("AAVE CEX $1,500,000".data)) = "CEX_IN" := by decide
  simp only [parse_events_from_message, htok, hsplit, List.flatMap_cons, List.flatMap_nil,
    List.append_nil, lineEvents, hk, hu, hv, hh, he, hcf]
  norm_num

/-- Claim C9: a line with a minus sign before the dollar amount still yields
an event, whose usd_amount is the unsigned magnitude: the sign captured by
RE_USD's group 1 is never read, so negative-signed amounts are not rejected
by the non-positive-amount guard. -/
theorem c9_negative_sign_discarded :
    parse_events_from_message "AAVE CEX -$100" 0
      = [{ ts := 0, token := "AAVE", flow := "CEX_IN", usd_amount := 100,
           exchange := "", raw := "AAVE CEX -$100" }] := by
  have htok : pick_token_from_text ("AAVE CEX -$100".data) = some "AAVE" := by decide
  have hsplit : splitLines ("AAVE CEX -$100".data) = ["AAVE CEX -$100".data] := by decide
  have hk : RE_KIND_search ("AAVE CEX -$100".data) = some "CEX" := by decide
  have hu : RE_USD_search (("AAVE CEX -$100".data).filter (fun c => !(c == ',')))
      = some ("100".data) := by decide
  have hv : strToQ ("100".data) = 100 := by
    rw [strToQ_digits _ ("100".data) [] 100 0 (by decide) (by decide) (by decide)]
    norm_num
  have hh : RE_HHMMSS_search ("AAVE CEX -$100".data) = none := by decide
  have he : RE_EXCHANGE_search ("AAVE CEX -$100".data) = none := by decide
  have hcf : classify_flow "CEX" (upperL ("AAVE CEX -$100".data)) = "CEX_IN" := by decide
  simp only [parse_events_from_message, htok, hsplit, List.flatMap_cons, List.flatMap_nil,
    List.append_nil, lineEvents, hk, hu, hv, hh, he, hcf]
  norm_num

/-- Claim C7: every event returned by the parser has a strictly positive
usd_amount, and a line whose amount is unparsable or parses to a value at
most zero contributes no events. -/
theorem c7_parsed_events_positive_usd :
    (∀ (msg : String) (t : ℚ) (ev : Event),
        ev ∈ parse_events_from_message msg t → 0 < ev.usd_amount)
      ∧ (∀ (token : String) (t : ℚ) (line : List Char),
          (RE_USD_search (line.filter (fun c => !(c == ','))) = none
            ∨ ∃ g, RE_USD_search (line.filter (fun c => !(c == ','))) = some g
                ∧ strToQ g ≤ 0) →
          lineEvents token t line = []) := by
  constructor
  · intro msg t ev hmem
    unfold parse_events_from_message at hmem
    cases htok : pick_token_from_text msg.data with
    | none => simp only [htok] at hmem; simp at hmem
    | some token =>
        simp only [htok] at hmem
        rw [List.mem_flatMap] at hmem
        obtain ⟨line, _, hline⟩ := hmem
        unfold lineEvents at hline
        cases hk : RE_KIND_search line with
        | none => simp only [hk] at hline; simp at hline
        | some bk =>
          cases hu : RE_USD_search (line.filter (fun c => !(c == ','))) with
          | none => simp only [hk, hu] at hline; simp at hline
          | some g =>
            simp only [hk, hu] at hline
            by_cases hle : strToQ g ≤ 0
            · rw [if_pos hle] at hline; simp at hline
            · rw [if_neg hle] at hline
              simp only [List.mem_singleton] at hline
              rw [hline]
              exact lt_of_not_le hle
  · intro token t line h
    rcases h with h | ⟨g, hg, hle⟩
    · cases hk : RE_KIND_search line <;> simp [lineEvents, hk, h]
    · cases hk : RE_KIND_search line <;> simp [lineEvents, hk, hg, hle]

/-- Witness for c7: the event parsed from "AAVE CEX $100" has positive
usd_amount, and the line "CEX $0" (amount 0) contributes no events. -/
theorem c7_parsed_events_positive_usd_witness :
    (evC7 ∈ parse_events_from_message "AAVE CEX $100" 0 ∧ 0 < evC7.usd_amount)
      ∧ ((RE_USD_search (("CEX $0".data).filter (fun c => !(c == ','))) = some ("0".data)
            ∧ strToQ ("0".data) ≤ 0)
          ∧ lineEvents "AAVE" 0 ("CEX $0".data) = []) := by
  have hv0 : strToQ ("0".data) = 0 := by
    rw [strToQ_digits _ ("0".data) [] 0 0 (by decide) (by decide) (by decide)]
    norm_num
  have hparse : parse_events_from_message "AAVE CEX $100" 0 = [evC7] := by
    have htok : pick_token_from_text ("AAVE CEX $100".data) = some "AAVE" := by decide
    have hsplit : splitLines ("AAVE CEX $100".data) = ["AAVE CEX $100".data] := by decide
    have hk : RE_KIND_search ("AAVE CEX $100".data) = some "CEX" := by decide
    have hu : RE_USD_search (("AAVE CEX $100".data).filter (fun c => !(c == ',')))
        = some ("100".data) := by decide
    have hv : strToQ ("100".data) = 100 := by
      rw [strToQ_digits _ ("100".data) [] 100 0 (by decide) (by decide) (by decide)]
      norm_num
    have hh : RE_HHMMSS_search ("AAVE CEX $100".data) = none := by decide
    have he : RE_EXCHANGE_search ("AAVE CEX $100".data) = none := by decide
    have hcf : classify_flow "CEX" (upperL ("AAVE CEX $100".data)) = "CEX_IN" := by decide
    simp only [parse_events_from_message, htok, hsplit, List.flatMap_cons, List.flatMap_nil,
      List.append_nil, lineEvents, hk, hu, hv, hh, he, hcf]
    norm_num [evC7]
  have hmem : evC7 ∈ parse_events_from_message "AAVE CEX $100" 0 := by
    rw [hparse]; exact List.mem_singleton_self _
  refine ⟨⟨hmem, c7_parsed_events_positive_usd.1 "AAVE CEX $100" 0 evC7 hmem⟩,
    ⟨⟨by decide, by simp [hv0]⟩,
      c7_parsed_events_positive_usd.2 "AAVE" 0 ("CEX $0".data)
        (Or.inr ⟨"0".data, by decide, by simp [hv0]⟩)⟩⟩


theorem weight_CEX_IN : weight_for_flow "CEX_IN" = 3 / 2 := rfl

theorem mcap_AAVE : get_market_cap "AAVE" = 1200000000 := rfl

theorem eA_ts (ts u : ℚ) : (eA ts u).ts = ts := rfl

theorem eA_token (ts u : ℚ) : (eA ts u).token = "AAVE" := rfl

theorem norm_eA (ts u : ℚ) :
    normalize_pressure "AAVE" (pressure_usd (eA ts u)) = u / 800 := by
  have hmax : max (1 : ℚ) 1200000000 = 1200000000 := max_eq_right (by norm_num)
  simp only [normalize_pressure, pressure_usd, eA, weight_CEX_IN, mcap_AAVE, hmax]
  ring

theorem bucket3_eval : bucket_norm c2evs3 4000 "AAVE" 1 = [1, 1, 1000] := by
  have hw3 : events_in_window c2evs3 4000 1 = c2evs3 := by
    simp only [events_in_window, MIN_LAG_MINUTES, c2evs3]
    norm_num [List.filter_cons, eA_ts]
  simp only [bucket_norm]
  rw [hw3]
  simp only [c2evs3]
  norm_num [List.filter_cons, eA_token, norm_eA]

theorem bucket4_eval : bucket_norm c2evs4 4000 "AAVE" 1 = [1, 1, 1000, 1000] := by
  have hw4 : events_in_window c2evs4 4000 1 = c2evs4 := by
    simp only [events_in_window, MIN_LAG_MINUTES, c2evs4, c2evs3]
    norm_num [List.filter_cons, eA_ts]
  simp only [bucket_norm]
  rw [hw4]
  simp only [c2evs4, c2evs3]
  norm_num [List.filter_cons, eA_token, norm_eA]

theorem scaleS3_eval : scaleS [1, 1, 1000] = 10 := by
  have hms : ([1, 1, 1000] : List ℚ).mergeSort (fun a b => decide (a ≤ b)) = [1, 1, 1000] :=
    List.mergeSort_of_sorted (by decide)
  have hmed : pymedian [1, 1, 1000] = 1 := by
    simp only [pymedian, hms]
    norm_num
  have habs : (([1, 1, 1000] : List ℚ).filter (fun x => decide (x ≠ 0))).map (fun x => |x|)
      = [1, 1, 1000] := by norm_num [List.filter_cons]
  simp only [scaleS, habs]
  rw [if_neg (by simp), hmed]
  norm_num [max_eq_right]

theorem scaleS4_eval : scaleS [1, 1, 1000, 1000] = 5005 := by
  have hms : ([1, 1, 1000, 1000] : List ℚ).mergeSort (fun a b => decide (a ≤ b))
      = [1, 1, 1000, 1000] := List.mergeSort_of_sorted (by decide)
  have hmed : pymedian [1, 1, 1000, 1000] = 5005 / 10 := by
    simp only [pymedian, hms]
    norm_num
  have habs : (([1, 1, 1000, 1000] : List ℚ).filter (fun x => decide (x ≠ 0))).map
      (fun x => |x|) = [1, 1, 1000, 1000] := by norm_num [List.filter_cons]
  simp only [scaleS, habs]
  rw [if_neg (by simp), hmed]
  norm_num [max_eq_right]

theorem conf_ge_50_of_nonneg (l : List ℚ) (h : ∀ x ∈ l, 0 ≤ x) :
    50 ≤ (calc_conf_from_pressures l).1 := by
  have htot : 0 ≤ l.sum := List.sum_nonneg h
  have hS : 1 ≤ scaleS l := one_le_scaleS l
  have hx : (0 : ℝ) ≤ ((l.sum : ℚ) : ℝ) / ((scaleS l : ℚ) : ℝ) := by
    apply div_nonneg
    · exact_mod_cast htot
    · exact_mod_cast le_trans zero_le_one hS
  have htanh := tanh_nonneg' hx
  have hv : (50 : ℝ) ≤ confReal l.sum (scaleS l) := by
    unfold confReal
    nlinarith
  have hlow := le_pyRound (confReal l.sum (scaleS l))
  have hgt : (49 : ℝ) < (pyRound (confReal l.sum (scaleS l)) : ℝ) := by linarith
  have hz : (49 : ℤ) < pyRound (confReal l.sum (scaleS l)) := by exact_mod_cast hgt
  show 50 ≤ pyRound (confReal l.sum (scaleS l))
  omega

/-- Claim C2, amended: for a token and window whose events all have flow
CEX_IN (whose weight 1.5 is strictly positive) and positive usd_amount, the
aggregator's confidence never falls below the neutral value 50. (The
claimed monotonicity in the number of events is false, see the
counterexample: a new event can enlarge the median-based scale S.) -/
theorem c2_cex_in_confidence_at_least_neutral
    (events : List Event) (now_utc : ℚ) (token : String) (wh : ℕ)
    (h : ∀ e ∈ events, e.flow = "CEX_IN" ∧ 0 < e.usd_amount) :
    50 ≤ (aggregate_by_window events now_utc token wh).conf := by
  apply conf_ge_50_of_nonneg
  intro x hx
  simp only [bucket_norm, List.mem_map] at hx
  obtain ⟨e, he, rfl⟩ := hx
  rw [List.mem_filter] at he
  have hmem : e ∈ events := by
    have h1 := he.1
    simp only [events_in_window, List.mem_filter] at h1
    exact h1.1
  obtain ⟨hflow, husd⟩ := h e hmem
  unfold normalize_pressure pressure_usd
  rw [hflow, weight_CEX_IN]
  have hf : (0 : ℚ) < 1000000 / max 1 (get_market_cap e.token) := by
    apply div_pos (by norm_num)
    exact lt_of_lt_of_le zero_lt_one (le_max_left _ _)
  have h32 : (0 : ℚ) < 3 / 2 := by norm_num
  exact mul_nonneg (mul_nonneg husd.le h32.le) hf.le

/-- Witness for c2: three concrete CEX_IN events keep confidence at least 50. -/
theorem c2_cex_in_confidence_at_least_neutral_witness :
    (∀ e ∈ c2evs3, e.flow = "CEX_IN" ∧ 0 < e.usd_amount)
      ∧ 50 ≤ (aggregate_by_window c2evs3 4000 "AAVE" 1).conf :=
  ⟨by decide, c2_cex_in_confidence_at_least_neutral c2evs3 4000 "AAVE" 1 (by decide)⟩

/-- Counterexample to claim C2 as stated: with only CEX_IN events in the
window's subset, adding one more CEX_IN event strictly decreases the
aggregator's confidence (from 100 to 69): the added large event lifts the
median-based scale S from 10 to 5005, shrinking total/S from 100.2 to 0.4. -/
theorem c2_confidence_can_decrease_counterexample :
    (aggregate_by_window c2evs4 4000 "AAVE" 1).conf
      < (aggregate_by_window c2evs3 4000 "AAVE" 1).conf := by
  have hc3 : (aggregate_by_window c2evs3 4000 "AAVE" 1).conf
      = pyRound (confReal 1002 10) := by
    show (calc_conf_from_pressures (bucket_norm c2evs3 4000 "AAVE" 1)).1
        = pyRound (confReal 1002 10)
    rw [bucket3_eval]
    simp only [calc_conf_from_pressures, scaleS3_eval]
    norm_num
  have hc4 : (aggregate_by_window c2evs4 4000 "AAVE" 1).conf
      = pyRound (confReal 2002 5005) := by
    show (calc_conf_from_pressures (bucket_norm c2evs4 4000 "AAVE" 1)).1
        = pyRound (confReal 2002 5005)
    rw [bucket4_eval]
    simp only [calc_conf_from_pressures, scaleS4_eval]
    norm_num
  rw [hc3, hc4]
  -- before: total/S = 100.2, tanh above 99/100, confidence above 99.5
  have hxa : ((1002 : ℚ) : ℝ) / ((10 : ℚ) : ℝ) = (1002 : ℝ) / 10 := by norm_num
  have hexp : (101 : ℝ) ≤ Real.exp ((1002 : ℝ) / 10) := by
    have h := Real.add_one_le_exp ((1002 : ℝ) / 10)
    linarith
  have hsq : (199 : ℝ) < Real.exp ((1002 : ℝ) / 10) ^ 2 := by nlinarith
  have htanh3 : (99 : ℝ) / 100 < Real.tanh ((1002 : ℝ) / 10) := by
    rw [tanh_exp_formula, lt_div_iff (by positivity)]
    nlinarith
  have hv3 : (199 : ℝ) / 2 < confReal 1002 10 := by
    unfold confReal
    rw [hxa]
    nlinarith
  -- after: total/S = 0.4, exp(0.8) at most 5, tanh at most 2/3
  have hxb : ((2002 : ℚ) : ℝ) / ((5005 : ℚ) : ℝ) = (2 : ℝ) / 5 := by norm_num
  have hsq4 : Real.exp ((2 : ℝ) / 5) ^ 2 = Real.exp ((4 : ℝ) / 5) := by
    rw [sq, ← Real.exp_add]
    norm_num
  have hneg := Real.add_one_le_exp (-((4 : ℝ) / 5))
  have hpos : (0 : ℝ) < Real.exp ((4 : ℝ) / 5) := Real.exp_pos _
  have hinv : Real.exp (-((4 : ℝ) / 5)) = (Real.exp ((4 : ℝ) / 5))⁻¹ := Real.exp_neg _
  have hle5 : Real.exp ((4 : ℝ) / 5) ≤ 5 := by
    have h15 : (1 : ℝ) / 5 ≤ (Real.exp ((4 : ℝ) / 5))⁻¹ := by
      rw [← hinv]
      linarith
    have hmul : Real.exp ((4 : ℝ) / 5) * (Real.exp ((4 : ℝ) / 5))⁻¹ = 1 :=
      mul_inv_cancel₀ hpos.ne'
    nlinarith
  have htanh4 : Real.tanh ((2 : ℝ) / 5) ≤ 2 / 3 := by
    rw [tanh_exp_formula, div_le_iff (by positivity)]
    nlinarith
  have hv4 : confReal 2002 5005 ≤ 250 / 3 := by
    unfold confReal
    rw [hxb]
    nlinarith
  have hlo := le_pyRound (confReal 1002 10)
  have hhi := pyRound_le (confReal 2002 5005)
  have hfin : ((pyRound (confReal 2002 5005)) : ℝ) < ((pyRound (confReal 1002 10)) : ℝ) := by
    linarith
  exact_mod_cast hfin


theorem bkItems_length (token : String) (S tot : ℚ) :
    ∀ (seq : List Event) (c : ℚ), (bkItems token S tot c seq).length = seq.length := by
  intro seq
  induction seq with
  | nil => intro c; rfl
  | cons ev rest ih => intro c; simp only [bkItems, List.length_cons, ih]

theorem bkItems_map_conf (token : String) (S tot : ℚ) :
    ∀ (seq : List Event) (c : ℚ),
      (bkItems token S tot c seq).map (fun it => it.conf_after)
        = (cumSumsFrom c (seq.map (fun ev => normalize_pressure token (pressure_usd ev)))).map
            (fun cum => 50 + 50 * Real.tanh (((cum : ℚ) : ℝ) / ((S : ℚ) : ℝ))) := by
  intro seq
  induction seq with
  | nil => intro c; rfl
  | cons ev rest ih =>
      intro c
      simp only [bkItems, List.map_cons, cumSumsFrom, ih]

theorem cumSumsFrom_getLast? (l : List ℚ) :
    ∀ c : ℚ, l ≠ [] → (cumSumsFrom c l).getLast? = some (c + l.sum) := by
  induction l with
  | nil => intro c h; exact absurd rfl h
  | cons x rest ih =>
      intro c _
      cases hr : rest with
      | nil => subst hr; simp [cumSumsFrom]
      | cons y tl =>
          subst hr
          have ih2 := ih (c + x) (List.cons_ne_nil y tl)
          rw [show cumSumsFrom c (x :: y :: tl) = (c + x) :: cumSumsFrom (c + x) (y :: tl)
            from rfl]
          rw [show cumSumsFrom (c + x) (y :: tl) = (c + x + y) :: cumSumsFrom (c + x + y) tl
            from rfl] at ih2 ⊢
          rw [List.getLast?_cons_cons, ih2]
          congr 1
          simp only [List.sum_cons]
          ring

/-- Claim C8: when the selected sequence for a token and window is longer
than the positive cap max_lines, the emitted record list is exactly the
last max_lines full records by position, and the retained conf_after values
are the tanh transforms of prefix sums of the full untruncated pressure
sequence (with the full-sequence scale), not values recomputed on the
suffix. -/
theorem c8_truncation_display_only
    (events : List Event) (now_utc : ℚ) (token : String) (wh : ℕ) (max_lines : ℕ)
    (hpos : 0 < max_lines) (hlt : max_lines < (bkSeq events now_utc token wh).length) :
    (breakdowns_by_window events now_utc token wh max_lines).events_list
        = (bkFullItems events now_utc token wh).drop
            ((bkSeq events now_utc token wh).length - max_lines)
      ∧ (breakdowns_by_window events now_utc token wh max_lines).events_list.length
          = max_lines
      ∧ (breakdowns_by_window events now_utc token wh max_lines).events_list.map
            (fun it => it.conf_after)
          = ((cumSumsFrom 0 (bkPrelim events now_utc token wh)).map
              (fun cum => 50 + 50 * Real.tanh
                (((cum : ℚ) : ℝ) / ((bkScale events now_utc token wh : ℚ) : ℝ)))).drop
              ((bkSeq events now_utc token wh).length - max_lines) := by
  have hlen : (bkFullItems events now_utc token wh).length
      = (bkSeq events now_utc token wh).length :=
    bkItems_length token (bkScale events now_utc token wh)
      (bkTotalAbs events now_utc token wh) (bkSeq events now_utc token wh) 0
  have hcond : 0 < max_lines ∧ max_lines < (bkFullItems events now_utc token wh).length := by
    rw [hlen]
    exact ⟨hpos, hlt⟩
  have hel : (breakdowns_by_window events now_utc token wh max_lines).events_list
      = (bkFullItems events now_utc token wh).drop
          ((bkSeq events now_utc token wh).length - max_lines) := by
    show (if 0 < max_lines ∧ max_lines < (bkFullItems events now_utc token wh).length then
        (bkFullItems events now_utc token wh).drop
          ((bkFullItems events now_utc token wh).length - max_lines)
      else bkFullItems events now_utc token wh)
        = (bkFullItems events now_utc token wh).drop
            ((bkSeq events now_utc token wh).length - max_lines)
    rw [if_pos hcond, hlen]
  refine ⟨hel, ?_, ?_⟩
  · rw [hel, List.length_drop, hlen]
    omega
  · rw [hel, List.map_drop]
    congr 1
    show (bkItems token (bkScale events now_utc token wh) (bkTotalAbs events now_utc token wh)
        0 (bkSeq events now_utc token wh)).map (fun it => it.conf_after) = _
    rw [bkItems_map_conf]
    rfl

/-- The two small example events pass the window filter and are sorted. -/
theorem bkSeq2_eval : bkSeq exEvents2 4000 "AAVE" 1 = exEvents2 := by
  have hw : events_in_window exEvents2 4000 1 = exEvents2 := by
    simp only [events_in_window, MIN_LAG_MINUTES, exEvents2]
    norm_num [List.filter_cons, eA_ts]
  have hf : exEvents2.filter (fun e => e.token == "AAVE") = exEvents2 := by
    simp only [exEvents2]
    norm_num [List.filter_cons, eA_token]
  simp only [bkSeq, hw, hf]
  exact List.mergeSort_of_sorted (by decide)

/-- The three C2 example events pass the window filter and are sorted. -/
theorem bkSeq3_eval : bkSeq c2evs3 4000 "AAVE" 1 = c2evs3 := by
  have hw : events_in_window c2evs3 4000 1 = c2evs3 := by
    simp only [events_in_window, MIN_LAG_MINUTES, c2evs3]
    norm_num [List.filter_cons, eA_ts]
  have hf : c2evs3.filter (fun e => e.token == "AAVE") = c2evs3 := by
    simp only [c2evs3]
    norm_num [List.filter_cons, eA_token]
  simp only [bkSeq, hw, hf]
  exact List.mergeSort_of_sorted (by decide)

/-- Witness for c8: three events, cap 1. -/
theorem c8_truncation_display_only_witness :
    ((0 : ℕ) < 1 ∧ 1 < (bkSeq c2evs3 4000 "AAVE" 1).length)
      ∧ ((breakdowns_by_window c2evs3 4000 "AAVE" 1 1).events_list
            = (bkFullItems c2evs3 4000 "AAVE" 1).drop
                ((bkSeq c2evs3 4000 "AAVE" 1).length - 1)
          ∧ (breakdowns_by_window c2evs3 4000 "AAVE" 1 1).events_list.length = 1
          ∧ (breakdowns_by_window c2evs3 4000 "AAVE" 1 1).events_list.map
                (fun it => it.conf_after)
              = ((cumSumsFrom 0 (bkPrelim c2evs3 4000 "AAVE" 1)).map
                  (fun cum => 50 + 50 * Real.tanh
                    (((cum : ℚ) : ℝ) / ((bkScale c2evs3 4000 "AAVE" 1 : ℚ) : ℝ)))).drop
                  ((bkSeq c2evs3 4000 "AAVE" 1).length - 1)) := by
  have hlen : 1 < (bkSeq c2evs3 4000 "AAVE" 1).length := by
    rw [bkSeq3_eval]
    decide
  exact ⟨⟨Nat.zero_lt_one, hlen⟩,
    c8_truncation_display_only c2evs3 4000 "AAVE" 1 1 Nat.zero_lt_one hlen⟩


theorem pymedian_of_perm {l l' : List ℚ} (h : l.Perm l') : pymedian l = pymedian l' := by
  have htrans : ∀ a b c : ℚ, (decide (a ≤ b)) = true → (decide (b ≤ c)) = true
      → (decide (a ≤ c)) = true := by
    intro a b c hab hbc
    simp only [decide_eq_true_eq] at *
    exact le_trans hab hbc
  have htot : ∀ a b : ℚ, ((decide (a ≤ b)) || (decide (b ≤ a))) = true := by
    intro a b
    simp only [Bool.or_eq_true, decide_eq_true_eq]
    exact le_total a b
  have hs1 := List.sorted_mergeSort htrans htot l
  have hs2 := List.sorted_mergeSort htrans htot l'
  have hs1' : List.Sorted (fun a b : ℚ => a ≤ b) (l.mergeSort (fun a b => decide (a ≤ b))) :=
    hs1.imp (fun hx => by simpa using hx)
  have hs2' : List.Sorted (fun a b : ℚ => a ≤ b) (l'.mergeSort (fun a b => decide (a ≤ b))) :=
    hs2.imp (fun hx => by simpa using hx)
  have hperm : (l.mergeSort (fun a b => decide (a ≤ b))).Perm
      (l'.mergeSort (fun a b => decide (a ≤ b))) :=
    ((List.mergeSort_perm l _).trans h).trans (List.mergeSort_perm l' _).symm
  have heq : l.mergeSort (fun a b => decide (a ≤ b))
      = l'.mergeSort (fun a b => decide (a ≤ b)) :=
    List.eq_of_perm_of_sorted hperm hs1' hs2'
  simp only [pymedian, heq, h.length_eq]

theorem scaleS_of_perm {l l' : List ℚ} (h : l.Perm l') : scaleS l = scaleS l' := by
  have hav : ((l.filter (fun x => decide (x ≠ 0))).map (fun x => |x|)).Perm
      ((l'.filter (fun x => decide (x ≠ 0))).map (fun x => |x|)) :=
    (h.filter (fun x => decide (x ≠ 0))).map (fun x => |x|)
  simp only [scaleS]
  by_cases h1 : (l.filter (fun x => decide (x ≠ 0))).map (fun x => |x|) = []
  · have h2 : (l'.filter (fun x => decide (x ≠ 0))).map (fun x => |x|) = [] := by
      have hl := hav.length_eq
      rw [h1] at hl
      exact List.length_eq_zero.mp hl.symm
    rw [if_pos h1, if_pos h2]
  · have h2 : ¬ (l'.filter (fun x => decide (x ≠ 0))).map (fun x => |x|) = [] := by
      intro he
      apply h1
      have hl := hav.length_eq
      rw [he] at hl
      exact List.length_eq_zero.mp hl
    rw [if_neg h1, if_neg h2, pymedian_of_perm hav]

theorem bucket_eq_filtered_map (events : List Event) (now_utc : ℚ) (token : String) (wh : ℕ) :
    bucket_norm events now_utc token wh
      = ((events_in_window events now_utc wh).filter (fun e => e.token == token)).map
          (fun e => normalize_pressure token (pressure_usd e)) := by
  unfold bucket_norm
  apply List.map_congr_left
  intro e he
  rw [List.mem_filter] at he
  have ht : e.token = token := by simpa using he.2
  rw [ht]

theorem bkPrelim_perm_bucket (events : List Event) (now_utc : ℚ) (token : String) (wh : ℕ) :
    (bkPrelim events now_utc token wh).Perm (bucket_norm events now_utc token wh) := by
  rw [bucket_eq_filtered_map]
  unfold bkPrelim bkSeq
  exact (List.mergeSort_perm _ _).map _

/-- Claim C4: the running confidence recorded after the last event of the
breakdown trace is exactly the real-valued confidence the aggregator
computes from the same subset's normalized pressures (same sum, same scale
S, same tanh transform), and the aggregator's reported integer confidence
is its rounding. (The source renders conf_after with one decimal for
display; the recorded value modelled here is the underlying one.) -/
theorem c4_breakdown_final_conf_matches_aggregator
    (events : List Event) (now_utc : ℚ) (token : String) (wh : ℕ) (max_lines : ℕ)
    (hne : bkSeq events now_utc token wh ≠ []) :
    ((breakdowns_by_window events now_utc token wh max_lines).events_list.getLastD
        default).conf_after
      = confReal (bucket_norm events now_utc token wh).sum
          (scaleS (bucket_norm events now_utc token wh))
    ∧ (aggregate_by_window events now_utc token wh).conf
      = pyRound (((breakdowns_by_window events now_utc token wh max_lines).events_list.getLastD
          default).conf_after) := by
  have hlen : (bkFullItems events now_utc token wh).length
      = (bkSeq events now_utc token wh).length :=
    bkItems_length token (bkScale events now_utc token wh)
      (bkTotalAbs events now_utc token wh) (bkSeq events now_utc token wh) 0
  have hpos : 0 < (bkSeq events now_utc token wh).length := List.length_pos.mpr hne
  have hfullne : bkFullItems events now_utc token wh ≠ [] := by
    rw [← List.length_pos, hlen]
    exact hpos
  have hgl : (breakdowns_by_window events now_utc token wh max_lines).events_list.getLast?
      = (bkFullItems events now_utc token wh).getLast? := by
    show (if 0 < max_lines ∧ max_lines < (bkFullItems events now_utc token wh).length then
        (bkFullItems events now_utc token wh).drop
          ((bkFullItems events now_utc token wh).length - max_lines)
      else bkFullItems events now_utc token wh).getLast? = _
    split
    · rename_i hc
      rw [List.getLast?_drop, if_neg (by omega)]
    · rfl
  obtain ⟨it, hit⟩ : ∃ it, (bkFullItems events now_utc token wh).getLast? = some it := by
    cases hq : (bkFullItems events now_utc token wh).getLast? with
    | none => exact absurd (List.getLast?_eq_none_iff.mp hq) hfullne
    | some it => exact ⟨it, rfl⟩
  have hprelimne : (bkSeq events now_utc token wh).map
      (fun ev => normalize_pressure token (pressure_usd ev)) ≠ [] := by
    simpa using hne
  have hmapLast : ((bkFullItems events now_utc token wh).map (fun i => i.conf_after)).getLast?
      = some (50 + 50 * Real.tanh
          ((((0 : ℚ) + ((bkSeq events now_utc token wh).map
              (fun ev => normalize_pressure token (pressure_usd ev))).sum : ℚ) : ℝ)
            / ((bkScale events now_utc token wh : ℚ) : ℝ))) := by
    show ((bkItems token (bkScale events now_utc token wh)
        (bkTotalAbs events now_utc token wh) 0 (bkSeq events now_utc token wh)).map
          (fun i => i.conf_after)).getLast? = _
    rw [bkItems_map_conf, List.getLast?_map,
      cumSumsFrom_getLast? _ 0 hprelimne]
    rfl
  rw [List.getLast?_map, hit] at hmapLast
  have hconf : it.conf_after = 50 + 50 * Real.tanh
      ((((0 : ℚ) + (bkPrelim events now_utc token wh).sum : ℚ) : ℝ)
        / ((bkScale events now_utc token wh : ℚ) : ℝ)) := by
    have := Option.some.inj hmapLast
    exact this
  have hsum : (bkPrelim events now_utc token wh).sum
      = (bucket_norm events now_utc token wh).sum :=
    (bkPrelim_perm_bucket events now_utc token wh).sum_eq
  have hscale : bkScale events now_utc token wh
      = scaleS (bucket_norm events now_utc token wh) :=
    scaleS_of_perm (bkPrelim_perm_bucket events now_utc token wh)
  have hlast : (breakdowns_by_window events now_utc token wh max_lines).events_list.getLastD
      default = it := by
    rw [List.getLastD_eq_getLast?, hgl, hit]
    rfl
  have hfirst : ((breakdowns_by_window events now_utc token wh max_lines).events_list.getLastD
      default).conf_after
        = confReal (bucket_norm events now_utc token wh).sum
            (scaleS (bucket_norm events now_utc token wh)) := by
    rw [hlast, hconf, hsum, hscale]
    unfold confReal
    norm_num
  exact ⟨hfirst, by rw [hfirst]; rfl⟩

/-- Witness for c4: two concrete events. -/
theorem c4_breakdown_final_conf_matches_aggregator_witness :
    bkSeq exEvents2 4000 "AAVE" 1 ≠ []
      ∧ (((breakdowns_by_window exEvents2 4000 "AAVE" 1 30).events_list.getLastD
            default).conf_after
          = confReal (bucket_norm exEvents2 4000 "AAVE" 1).sum
              (scaleS (bucket_norm exEvents2 4000 "AAVE" 1))
        ∧ (aggregate_by_window exEvents2 4000 "AAVE" 1).conf
          = pyRound (((breakdowns_by_window exEvents2 4000 "AAVE" 1 30).events_list.getLastD
              default).conf_after)) := by
  have hne : bkSeq exEvents2 4000 "AAVE" 1 ≠ [] := by
    rw [bkSeq2_eval]
    simp [exEvents2]
  exact ⟨hne, c4_breakdown_final_conf_matches_aggregator exEvents2 4000 "AAVE" 1 30 hne⟩


theorem minute_decomp (ts : ℚ) : hourFloor ts + (minuteOf ts : ℚ) * 60 ≤ ts := by
  have hb1 : ((⌊ts / 60⌋ : ℤ) : ℚ) ≤ ts / 60 := Int.floor_le _
  have ha1 : ((⌊ts / 3600⌋ : ℤ) : ℚ) ≤ ts / 3600 := Int.floor_le _
  have hb2 : ts / 3600 < (⌊ts / 3600⌋ : ℤ) + 1 := Int.lt_floor_add_one _
  have hab : 60 * ⌊ts / 3600⌋ ≤ ⌊ts / 60⌋ := by
    apply Int.le_floor.mpr
    have he : ts / 60 = 60 * (ts / 3600) := by ring
    push_cast
    rw [he]
    linarith
  have hba : ⌊ts / 60⌋ < 60 * ⌊ts / 3600⌋ + 60 := by
    apply Int.floor_lt.mpr
    have he : ts / 60 = 60 * (ts / 3600) := by ring
    push_cast
    rw [he]
    linarith
  have hdiv : ⌊ts / 60⌋ % 60 = ⌊ts / 60⌋ - 60 * ⌊ts / 3600⌋ := by omega
  have hnn : (0 : ℤ) ≤ ⌊ts / 60⌋ % 60 := by omega
  have hcast : (((⌊ts / 60⌋ % 60).toNat : ℕ) : ℚ) = ((⌊ts / 60⌋ % 60 : ℤ) : ℚ) := by
    exact_mod_cast congrArg (fun z : ℤ => (z : ℚ)) (Int.toNat_of_nonneg hnn)
  have h60 : ((⌊ts / 60⌋ : ℤ) : ℚ) * 60 ≤ ts := by
    have he : ts / 60 * 60 = ts := by ring
    nlinarith
  unfold hourFloor minuteOf
  rw [hcast, hdiv]
  push_cast
  linarith

theorem alignPointer_le (step : ℕ) (ts t0 : ℚ) (h : alignPointer step ts = Except.ok t0) :
    t0 ≤ ts := by
  unfold alignPointer at h
  split at h
  · exact absurd h (by simp)
  · have ht0 : t0 = hourFloor ts + ((minuteOf ts / (step / 60)) * (step / 60) : ℕ) * 60 := by
      cases h
      rfl
    have hk : (minuteOf ts / (step / 60)) * (step / 60) ≤ minuteOf ts :=
      Nat.div_mul_le_self _ _
    have hkq : (((minuteOf ts / (step / 60)) * (step / 60) : ℕ) : ℚ) ≤ (minuteOf ts : ℚ) := by
      exact_mod_cast hk
    have hmain := minute_decomp ts
    rw [ht0]
    linarith

theorem replayInstants_ne_nil (delta : ℕ) (tN t0 : ℚ) (hd : 0 < delta) (h : t0 ≤ tN) :
    replayInstants delta tN t0 ≠ [] := by
  rw [replayInstants, dif_pos ⟨hd, h⟩]
  exact List.cons_ne_nil _ _

theorem events_in_window_upto (events : List Event) (p : ℚ) (wh : ℕ) :
    events_in_window (upto events p) p wh = events_in_window events p wh := by
  unfold events_in_window upto
  rw [List.filter_filter]
  apply List.filter_congr
  intro e _
  have himp : e.ts ≤ p - MIN_LAG_MINUTES * 60 → e.ts ≤ p := by
    intro h
    have hpos : (0 : ℚ) < MIN_LAG_MINUTES * 60 := by norm_num [MIN_LAG_MINUTES]
    linarith
  cases hA : decide (p - (wh : ℚ) * 3600 ≤ e.ts) <;>
    cases hB : decide (e.ts ≤ p - MIN_LAG_MINUTES * 60) <;>
      cases hC : decide (e.ts ≤ p) <;> simp_all

theorem aggregate_upto (events : List Event) (p : ℚ) (token : String) (wh : ℕ) :
    aggregate_by_window (upto events p) p token wh = aggregate_by_window events p token wh := by
  unfold aggregate_by_window bucket_norm
  rw [events_in_window_upto]

theorem head_le_getLast_ts (e0 : Event) (rest : List Event)
    (hsort : (e0 :: rest).Pairwise (fun a b => a.ts ≤ b.ts)) :
    e0.ts ≤ ((e0 :: rest).getLast (List.cons_ne_nil e0 rest)).ts := by
  have hmem := List.getLast_mem (List.cons_ne_nil e0 rest)
  rcases List.mem_cons.mp hmem with h1 | h2
  · rw [h1]
  · exact (List.pairwise_cons.mp hsort).1 _ h2

/-- Claim C10: with a nonempty event set, every replay-step configuration
0 < step < 60 makes the backtest replay fail with ZeroDivisionError at the
pointer alignment, before any snapshot is produced; with step at least 60
the replay is total and returns its snapshot list. -/
theorem c10_replay_step_division_guard (step : ℕ) (events : List Event) (hne : events ≠ []) :
    (0 < step → step < 60 → backtest_replay step events = Except.error "ZeroDivisionError")
      ∧ (60 ≤ step → ∃ out, backtest_replay step events = Except.ok out) := by
  have hevne : events.mergeSort tsLe ≠ [] := by
    intro h
    apply hne
    have hl := (List.mergeSort_perm events tsLe).length_eq
    rw [h] at hl
    exact List.length_eq_zero.mp hl.symm
  constructor
  · intro _ h2
    cases hm : events.mergeSort tsLe with
    | nil => exact absurd hm hevne
    | cons e0 rest =>
        have hal : alignPointer step e0.ts = Except.error "ZeroDivisionError" := by
          unfold alignPointer
          rw [if_pos (Nat.div_eq_of_lt h2)]
        simp only [backtest_replay, hm, hal]
  · intro h60
    cases hm : events.mergeSort tsLe with
    | nil => exact absurd hm hevne
    | cons e0 rest =>
        have hk : step / 60 ≠ 0 := by
          have h1 : 1 ≤ step / 60 := (Nat.one_le_div_iff (by norm_num)).mpr h60
          omega
        have hal : alignPointer step e0.ts = Except.ok (hourFloor e0.ts
            + ((minuteOf e0.ts / (step / 60)) * (step / 60) : ℕ) * 60) := by
          unfold alignPointer
          rw [if_neg hk]
        refine ⟨(replayInstants step ((e0 :: rest).getLast (List.cons_ne_nil e0 rest)).ts
          (hourFloor e0.ts + ((minuteOf e0.ts / (step / 60)) * (step / 60) : ℕ) * 60)).map
            (fun p => (p, fun token wh =>
              aggregate_by_window (upto (e0 :: rest) p) p token wh)), ?_⟩
        simp only [backtest_replay, hm, hal]

/-- Witness for c10: one event, step 30 seconds. -/
theorem c10_replay_step_division_guard_witness :
    (([eA 0 800] : List Event) ≠ [] ∧ (0 : ℕ) < 30 ∧ (30 : ℕ) < 60)
      ∧ backtest_replay 30 [eA 0 800] = Except.error "ZeroDivisionError" :=
  ⟨⟨by simp, by norm_num, by norm_num⟩,
    (c10_replay_step_division_guard 30 [eA 0 800] (by simp)).1 (by norm_num) (by norm_num)⟩

/-- Claim C3: for a time-sorted nonempty event set and a valid step, the
replay run to completion ends with a snapshot whose aggregation cells agree,
for every token and window, with running the aggregator once over the full
event set at the replay's final instant. -/
theorem c3_replay_final_agrees_with_full_aggregation
    (step : ℕ) (events : List Event) (hstep : 60 ≤ step) (hne : events ≠ [])
    (hsort : events.Pairwise (fun a b => a.ts ≤ b.ts)) :
    ∃ (snaps : List (ℚ × (String → ℕ → AggRes))) (pStar : ℚ)
      (f : String → ℕ → AggRes),
      backtest_replay step events = Except.ok snaps
        ∧ snaps.getLast? = some (pStar, f)
        ∧ ∀ (token : String) (wh : ℕ),
            f token wh = aggregate_by_window events pStar token wh := by
  have hms : events.mergeSort tsLe = events :=
    List.mergeSort_of_sorted (hsort.imp (fun hab => decide_eq_true hab))
  obtain ⟨e0, rest, hev⟩ : ∃ e0 rest, events = e0 :: rest := by
    cases events with
    | nil => exact absurd rfl hne
    | cons a l => exact ⟨a, l, rfl⟩
  subst hev
  have hk : step / 60 ≠ 0 := by
    have h1 : 1 ≤ step / 60 := (Nat.one_le_div_iff (by norm_num)).mpr hstep
    omega
  have hal : alignPointer step e0.ts = Except.ok (hourFloor e0.ts
      + ((minuteOf e0.ts / (step / 60)) * (step / 60) : ℕ) * 60) := by
    unfold alignPointer
    rw [if_neg hk]
  have ht0 : hourFloor e0.ts + ((minuteOf e0.ts / (step / 60)) * (step / 60) : ℕ) * 60
      ≤ e0.ts := alignPointer_le step e0.ts _ hal
  have htN : e0.ts ≤ ((e0 :: rest).getLast (List.cons_ne_nil e0 rest)).ts :=
    head_le_getLast_ts e0 rest hsort
  have hinst : replayInstants step ((e0 :: rest).getLast (List.cons_ne_nil e0 rest)).ts
      (hourFloor e0.ts + ((minuteOf e0.ts / (step / 60)) * (step / 60) : ℕ) * 60) ≠ [] :=
    replayInstants_ne_nil step _ _ (by omega) (le_trans ht0 htN)
  have hrep : backtest_replay step (e0 :: rest)
      = Except.ok ((replayInstants step
          ((e0 :: rest).getLast (List.cons_ne_nil e0 rest)).ts
          (hourFloor e0.ts + ((minuteOf e0.ts / (step / 60)) * (step / 60) : ℕ) * 60)).map
            (fun p => (p, fun token wh =>
              aggregate_by_window (upto (e0 :: rest) p) p token wh))) := by
    simp only [backtest_replay, hms, hal]
  obtain ⟨pS, hpS⟩ : ∃ pS, (replayInstants step
      ((e0 :: rest).getLast (List.cons_ne_nil e0 rest)).ts
      (hourFloor e0.ts + ((minuteOf e0.ts / (step / 60)) * (step / 60) : ℕ) * 60)).getLast?
        = some pS := by
    cases hq : (replayInstants step
        ((e0 :: rest).getLast (List.cons_ne_nil e0 rest)).ts
        (hourFloor e0.ts + ((minuteOf e0.ts / (step / 60)) * (step / 60) : ℕ) * 60)).getLast? with
    | none => exact absurd (List.getLast?_eq_none_iff.mp hq) hinst
    | some x => exact ⟨x, rfl⟩
  refine ⟨_, pS, fun token wh => aggregate_by_window (upto (e0 :: rest) pS) pS token wh,
    hrep, ?_, ?_⟩
  · rw [List.getLast?_map, hpS]
    rfl
  · intro token wh
    exact aggregate_upto (e0 :: rest) pS token wh

/-- Witness for c3: one event, the default 300 second step. -/
theorem c3_replay_final_agrees_with_full_aggregation_witness :
    ((60 : ℕ) ≤ 300 ∧ ([eA 1000 800] : List Event) ≠ []
        ∧ ([eA 1000 800] : List Event).Pairwise (fun a b => a.ts ≤ b.ts))
      ∧ ∃ (snaps : List (ℚ × (String → ℕ → AggRes))) (pStar : ℚ)
          (f : String → ℕ → AggRes),
          backtest_replay 300 [eA 1000 800] = Except.ok snaps
            ∧ snaps.getLast? = some (pStar, f)
            ∧ ∀ (token : String) (wh : ℕ),
                f token wh = aggregate_by_window [eA 1000 800] pStar token wh :=
  ⟨⟨by norm_num, by simp, by simp⟩,
    c3_replay_final_agrees_with_full_aggregation 300 [eA 1000 800] (by norm_num) (by simp)
      (by simp)⟩

end NansenListener
